import Mathlib

/-!
Verification of the `use-url-storage-state` repository: a low-level React hook
`useStorage` (src/src/use-storage/use-storage.test.tsx, lines 192-298, where the
implementation is embedded below its tests) synchronizing a value with a string
key-value storage backend, and a higher-level hook `useUrlStorageState`
(src/src/use-url-storage-state/use-url-storage-state.ts) mirroring that value
into a URL query parameter.

The embedding models:
  - the storage backend (`localStorage`-like) as an association list of
    string keys to string values with `getItem` / `setItem` / `removeItem`
    mirroring the Web Storage API (unique keys; `getItem` returns the first
    binding; `setItem` overwrites in place; `removeItem` deletes);
  - JavaScript string truthiness (`if (s)` is false exactly for `null`,
    `undefined` and the empty string) explicitly wherever the source relies
    on it;
  - a fallible `deserialize` as `String → Except Unit V` (an exception is
    `Except.error`);
  - `JSON.stringify` / `JSON.parse` on the fragment of JavaScript values the
    hooks exchange (null, booleans, integer numbers, strings, arrays,
    objects) as an executable printer and parser over a `Json` AST, with a
    proved parse-of-print round trip. Floating point numbers, `undefined`,
    and control-character escapes are outside the model.
-/

namespace UrlStorage

/-! ## The storage backend (Web Storage API collaborator) -/

/-- A string key-value store: contents of one storage backend
(`localStorage` / `sessionStorage`). -/
abbrev StorageMap := List (String × String)

/-- `storage.getItem(key)`: first binding of `key`, or `null` (`none`). -/
def getItem : StorageMap → String → Option String
  | [], _ => none
  | (k, v) :: rest, key => if k = key then some v else getItem rest key

/-- `storage.setItem(key, value)`: overwrite the binding in place, or append. -/
def setItem : StorageMap → String → String → StorageMap
  | [], key, value => [(key, value)]
  | (k, v) :: rest, key, value =>
    if k = key then (key, value) :: rest else (k, v) :: setItem rest key value

/-- `storage.removeItem(key)`: delete every binding of `key`. -/
def removeItem : StorageMap → String → StorageMap
  | [], _ => []
  | (k, v) :: rest, key =>
    if k = key then removeItem rest key else (k, v) :: removeItem rest key

theorem getItem_setItem_self (st : StorageMap) (k v : String) :
    getItem (setItem st k v) k = some v := by
  induction st with
  | nil => simp [setItem, getItem]
  | cons hd tl ih =>
    obtain ⟨k', v'⟩ := hd
    by_cases h : k' = k <;> simp [setItem, getItem, h, ih]

theorem getItem_setItem_ne (st : StorageMap) (k v : String) (k' : String)
    (h : k' ≠ k) : getItem (setItem st k v) k' = getItem st k' := by
  induction st with
  | nil => simp [setItem, getItem, Ne.symm h]
  | cons hd tl ih =>
    obtain ⟨a, b⟩ := hd
    by_cases ha : a = k
    · subst ha
      simp [setItem, getItem, Ne.symm h]
    · simp only [setItem, if_neg ha, getItem]
      by_cases hb : a = k' <;> simp [hb, ih]

theorem getItem_removeItem_self (st : StorageMap) (k : String) :
    getItem (removeItem st k) k = none := by
  induction st with
  | nil => simp [removeItem, getItem]
  | cons hd tl ih =>
    obtain ⟨a, b⟩ := hd
    by_cases ha : a = k <;> simp [removeItem, getItem, ha, ih]

theorem getItem_removeItem_ne (st : StorageMap) (k k' : String) (h : k' ≠ k) :
    getItem (removeItem st k) k' = getItem st k' := by
  induction st with
  | nil => simp [removeItem]
  | cons hd tl ih =>
    obtain ⟨a, b⟩ := hd
    by_cases ha : a = k
    · subst ha
      simp [removeItem, getItem, Ne.symm h, ih]
    · simp only [removeItem, if_neg ha, getItem]
      by_cases hb : a = k' <;> simp [hb, ih]

theorem setItem_setItem (st : StorageMap) (k a b : String) :
    setItem (setItem st k a) k b = setItem st k b := by
  induction st with
  | nil => simp [setItem]
  | cons hd tl ih =>
    obtain ⟨k', v'⟩ := hd
    by_cases h : k' = k <;> simp [setItem, h, ih]

/-! ## The `useStorage` hook (storage reconciler)

Source: src/src/use-storage/use-storage.test.tsx lines 192-298. -/

/-- JavaScript truthiness of a `string | null | undefined` value: falsy
exactly for `null`/`undefined` (`none`) and the empty string. -/
def truthy : Option String → Bool
  | none => false
  | some s => s ≠ ""

/-- The `defaultValue` prop: a plain value or a zero-argument producer
(`(() => ValueType) | ValueType`). -/
inductive DefaultValue (V : Type) where
  | value (v : V)
  | producer (f : Unit → V)

/-- `getDefaultValue` (lines 288-292): invoke the producer when the default
is a function, otherwise return it as is. -/
def getDefaultValue {V : Type} : DefaultValue V → V
  | .value v => v
  | .producer f => f ()

/-- The configuration of one `useStorage` instance (the `StorageProps`
fields that the reconciliation logic reads; `forceInit` defaults to
`never`, i.e. `fun _ => false`). -/
structure StorageConfig (V : Type) where
  key : String
  defaultValue : DefaultValue V
  serialize : V → String
  deserialize : String → Except Unit V
  forceInit : String → Bool

/-- `initFromStorage` (lines 227-241) with the `storedValue` argument passed
explicitly (`string | null` as `Option String`).  Returns the resolved value
together with the possibly updated storage contents (the catch branch runs
`storage.removeItem(key)`):

    const valueInLocalStorage = storedValue;
    if (valueInLocalStorage && !forceInit(valueInLocalStorage)) {
      try { return deserialize(valueInLocalStorage); }
      catch (error) { storage.removeItem(key); }
    }
    return getDefaultValue(defaultValue);
-/
def initFromStorageWith {V : Type} (cfg : StorageConfig V) (st : StorageMap)
    (stored : Option String) : V × StorageMap :=
  match stored with
  | some raw =>
    if raw ≠ "" ∧ cfg.forceInit raw = false then
      match cfg.deserialize raw with
      | .ok v => (v, st)
      | .error _ => (getDefaultValue cfg.defaultValue, removeItem st cfg.key)
    else (getDefaultValue cfg.defaultValue, st)
  | none => (getDefaultValue cfg.defaultValue, st)

/-- `initFromStorage` with the default argument
`storedValue = storage.getItem(key)` (first-load initialization). -/
def initFromStorage {V : Type} (cfg : StorageConfig V) (st : StorageMap) :
    V × StorageMap :=
  initFromStorageWith cfg st (getItem st cfg.key)

/-- The commit effect (lines 247-254): on every render, remove the entry at
the previous key when the key changed, record the current key, and write the
serialized current value:

    const prevKey = prevKeyRef.current;
    if (prevKey !== key) { storage.removeItem(prevKey); }
    prevKeyRef.current = key;
    storage.setItem(key, serialize(value));

Returns the updated storage contents and the updated `prevKeyRef`. -/
def commitEffect {V : Type} (serialize : V → String) (key : String) (value : V)
    (st : StorageMap) (prevKey : String) : StorageMap × String :=
  let st1 := if prevKey ≠ key then removeItem st prevKey else st
  (setItem st1 key (serialize value), key)

/-- Identity of a storage area object, for the reference comparison
`event.storageArea !== window.localStorage`. -/
inductive StorageArea where
  | localStorage
  | sessionStorage
  | other (id : Nat)
deriving DecidableEq

/-- A DOM `StorageEvent` as the handler reads it: `key` and `newValue` are
`string | null`. -/
structure StorageEvt where
  storageArea : StorageArea
  key : Option String
  newValue : Option String

/-- One live (`live: true`) `useStorage` instance: its configuration plus
the identity of the configured `storage` backend (the `storage` prop,
defaulting to `window.localStorage`). -/
structure LiveHook (V : Type) where
  cfg : StorageConfig V
  area : StorageArea

/-- `storageChanged` (lines 272-282): the `storage` event handler.  Note the
source compares the event's area against `window.localStorage`, not against
the configured backend `h.area`:

    if (event.storageArea !== window.localStorage ||
        event.key !== key ||
        event.newValue === serialize(value)) { return; }
    setValue(fromStorage(event.newValue));

`fromStorage` (lines 256-261) forwards to `initFromStorage` with the event's
new value as the explicit `storedValue`.  Returns the in-memory value and the
storage contents after the handler runs. -/
def storageChanged {V : Type} (h : LiveHook V) (value : V) (st : StorageMap)
    (ev : StorageEvt) : V × StorageMap :=
  if ev.storageArea ≠ StorageArea.localStorage ∨ ev.key ≠ some h.cfg.key ∨
      ev.newValue = some (h.cfg.serialize value) then
    (value, st)
  else
    initFromStorageWith h.cfg st ev.newValue

/-! ## Claims about the storage reconciler -/

/-- C1 (amended: a present raw string counts only when nonempty, because the
source tests `if (valueInLocalStorage)`, which is false for the empty
string): first-load initialization returns `deserialize(raw)` when
`storage.get(key)` yields a nonempty raw string, `forceInit(raw)` is false
and `deserialize(raw)` succeeds; in every other case (no raw string, empty
raw string, `forceInit(raw)` true, or `deserialize(raw)` throwing) it
returns the resolved default, invoking `defaultValue` when it is a
zero-argument producer. -/
theorem initFromStorage_firstLoad {V : Type} (cfg : StorageConfig V)
    (st : StorageMap) :
    (∀ raw v, getItem st cfg.key = some raw → raw ≠ "" →
      cfg.forceInit raw = false → cfg.deserialize raw = .ok v →
      initFromStorage cfg st = (v, st)) ∧
    ((getItem st cfg.key = none ∨ getItem st cfg.key = some "" ∨
      (∀ raw, getItem st cfg.key = some raw → cfg.forceInit raw = true) ∨
      (∀ raw, getItem st cfg.key = some raw → cfg.deserialize raw = .error ())) →
      (initFromStorage cfg st).1 = getDefaultValue cfg.defaultValue) ∧
    (∀ f : Unit → V, getDefaultValue (DefaultValue.producer f) = f ()) := by
  refine ⟨?_, ?_, fun f => rfl⟩
  · intro raw v hget hne hforce hok
    simp [initFromStorage, initFromStorageWith, hget, hne, hforce, hok]
  · intro hcase
    rcases hcase with h | h | h | h
    · simp [initFromStorage, initFromStorageWith, h]
    · simp [initFromStorage, initFromStorageWith, h]
    · cases hget : getItem st cfg.key with
      | none => simp [initFromStorage, initFromStorageWith, hget]
      | some raw => simp [initFromStorage, initFromStorageWith, hget, h raw hget]
    · cases hget : getItem st cfg.key with
      | none => simp [initFromStorage, initFromStorageWith, hget]
      | some raw =>
        by_cases hne : raw = ""
        · subst hne; simp [initFromStorage, initFromStorageWith, hget]
        · simp only [initFromStorage, initFromStorageWith, hget, h raw hget]
          split <;> rfl

/-- Concrete configuration used by the C1 theorems: identity-style
serialization (deserialization always succeeds), `forceInit` never. -/
def cfgC1 : StorageConfig String :=
  { key := "k", defaultValue := .value "d", serialize := fun s => s,
    deserialize := fun s => .ok s, forceInit := fun _ => false }

/-- C1 counterexample to the claim as stated: at `key = "k"`,
`storage.get(key)` yields the raw string `""`, `forceInit("")` is false and
`deserialize("")` succeeds (returning `""`), yet initialization returns the
default `"d"`, not `deserialize("") = ""`. -/
theorem initFromStorage_emptyRaw_counterexample :
    getItem [("k", "")] cfgC1.key = some "" ∧
    cfgC1.forceInit "" = false ∧
    cfgC1.deserialize "" = .ok "" ∧
    initFromStorage cfgC1 [("k", "")] = ("d", [("k", "")]) ∧
    ("d" : String) ≠ "" :=
  ⟨by decide, by decide, rfl, by decide, by decide⟩

/-- C1 witness: a nonempty stored string `"x"` deserializes and is returned. -/
theorem initFromStorage_firstLoad_witness :
    initFromStorage cfgC1 [("k", "x")] = ("x", [("k", "x")]) :=
  (initFromStorage_firstLoad cfgC1 [("k", "x")]).1 "x" "x" (by decide)
    (by decide) (by decide) rfl

/-- C5 (amended: restricted to nonempty stored raw strings — an empty stored
string never reaches `deserialize`, is not purged, and falls through to the
default): for every nonempty stored raw string on which `deserialize`
throws (with `forceInit` false), initialization catches the exception,
removes the corrupt entry from storage at the current key, and returns the
resolved default value; no error escapes (the model function is total). -/
theorem initFromStorage_corrupt_purged {V : Type} (cfg : StorageConfig V)
    (st : StorageMap) (raw : String)
    (h1 : getItem st cfg.key = some raw) (h2 : raw ≠ "")
    (h3 : cfg.forceInit raw = false) (h4 : cfg.deserialize raw = .error ()) :
    initFromStorage cfg st =
      (getDefaultValue cfg.defaultValue, removeItem st cfg.key) ∧
    getItem (initFromStorage cfg st).2 cfg.key = none := by
  have hmain : initFromStorage cfg st =
      (getDefaultValue cfg.defaultValue, removeItem st cfg.key) := by
    simp [initFromStorage, initFromStorageWith, h1, h2, h3, h4]
  exact ⟨hmain, by rw [hmain]; exact getItem_removeItem_self st cfg.key⟩

/-- Concrete configuration used by the C5 theorems: `deserialize` throws on
every input (like `JSON.parse` on a corrupt string), `forceInit` never. -/
def cfgC5 : StorageConfig String :=
  { key := "k", defaultValue := .value "d", serialize := fun s => s,
    deserialize := fun _ => .error (), forceInit := fun _ => false }

/-- C5 counterexample to the claim as stated: `""` is a stored raw string on
which `deserialize` throws (with `forceInit` false), yet initialization does
not remove the entry at `"k"`: the entry is still present afterwards. -/
theorem initFromStorage_corrupt_empty_counterexample :
    cfgC5.deserialize "" = .error () ∧
    cfgC5.forceInit "" = false ∧
    getItem [("k", "")] cfgC5.key = some "" ∧
    initFromStorage cfgC5 [("k", "")] = ("d", [("k", "")]) ∧
    getItem (initFromStorage cfgC5 [("k", "")]).2 cfgC5.key = some "" :=
  ⟨rfl, by decide, by decide, by decide, by decide⟩

/-- C5 witness: a nonempty corrupt entry `"bad"` is purged and the default
returned. -/
theorem initFromStorage_corrupt_purged_witness :
    initFromStorage cfgC5 [("k", "bad")] = ("d", []) ∧
    getItem (initFromStorage cfgC5 [("k", "bad")]).2 cfgC5.key = none :=
  ⟨(initFromStorage_corrupt_purged cfgC5 [("k", "bad")] "bad" (by decide)
      (by decide) (by decide) rfl).1,
   (initFromStorage_corrupt_purged cfgC5 [("k", "bad")] "bad" (by decide)
      (by decide) (by decide) rfl).2⟩

/-- C10: when `storage.get(key)` returns the empty string, initialization
treats the entry as absent: it returns the resolved default without
consulting `forceInit` or `deserialize` (the conclusion holds for every
choice of both) and without removing the entry from storage. -/
theorem initFromStorage_emptyString_absent {V : Type} (key : String)
    (dv : DefaultValue V) (serialize : V → String)
    (deserialize : String → Except Unit V) (forceInit : String → Bool)
    (st : StorageMap) (h : getItem st key = some "") :
    initFromStorage
      { key := key, defaultValue := dv, serialize := serialize,
        deserialize := deserialize, forceInit := forceInit } st =
      (getDefaultValue dv, st) := by
  simp [initFromStorage, initFromStorageWith, h]

/-- C10 witness: an empty stored string yields the default `7` and leaves
storage untouched, even though `forceInit` is constantly true and
`deserialize` always throws. -/
theorem initFromStorage_emptyString_absent_witness :
    initFromStorage
      { key := "k", defaultValue := DefaultValue.value 7,
        serialize := fun _ => "s", deserialize := fun _ => .error (),
        forceInit := fun _ => true } [("k", "")] = (7, [("k", "")]) :=
  initFromStorage_emptyString_absent "k" (DefaultValue.value 7) _ _ _
    [("k", "")] (by decide)

/-- C6: on a key transition `k1 → k2` (`k1 ≠ k2`) the commit effect removes
the entry at `k1` and commits the serialized current value under `k2`
(recording `k2` as the previous key); a run whose key equals the previous
key performs no removal at all (it is exactly `setItem`); and the
transition touches no key other than `k1` and `k2`, so the removal happens
exactly once per transition. -/
theorem commitEffect_keyMigration {V : Type} (serialize : V → String)
    (value : V) (st : StorageMap) (k1 k2 : String) (h : k1 ≠ k2) :
    getItem (commitEffect serialize k2 value st k1).1 k1 = none ∧
    getItem (commitEffect serialize k2 value st k1).1 k2 =
      some (serialize value) ∧
    (commitEffect serialize k2 value st k1).2 = k2 ∧
    (∀ (v' : V) (st' : StorageMap) (k : String),
      commitEffect serialize k v' st' k = (setItem st' k (serialize v'), k)) ∧
    (∀ k', k' ≠ k1 → k' ≠ k2 →
      getItem (commitEffect serialize k2 value st k1).1 k' = getItem st k') := by
  refine ⟨?_, ?_, rfl, ?_, ?_⟩
  · simp only [commitEffect, if_pos h]
    rw [getItem_setItem_ne _ _ _ _ h, getItem_removeItem_self]
  · simp only [commitEffect, if_pos h]
    exact getItem_setItem_self _ _ _
  · intro v' st' k
    simp [commitEffect]
  · intro k' h1 h2
    simp only [commitEffect, if_pos h]
    rw [getItem_setItem_ne _ _ _ _ h2, getItem_removeItem_ne _ _ _ h1]

/-- C6 witness: migrating from `"initial-key"` to `"changed-key"` (the
scenario of the `deletes old storage when key is dynamic` test) deletes the
old entry and stores the current value under the new key. -/
theorem commitEffect_keyMigration_witness :
    getItem (commitEffect (fun s => s) "changed-key" "pre saved"
      [("initial-key", "pre saved")] "initial-key").1 "initial-key" = none ∧
    getItem (commitEffect (fun s => s) "changed-key" "pre saved"
      [("initial-key", "pre saved")] "initial-key").1 "changed-key" =
      some "pre saved" :=
  ⟨(commitEffect_keyMigration (fun s => s) "pre saved"
      [("initial-key", "pre saved")] "initial-key" "changed-key"
      (by decide)).1,
   (commitEffect_keyMigration (fun s => s) "pre saved"
      [("initial-key", "pre saved")] "initial-key" "changed-key"
      (by decide)).2.1⟩

/-- C7 (amended: unless the empty new value is exactly the serialization of
the current in-memory value, in which case the echo guard
`event.newValue === serialize(value)` fires first and the value is left
unchanged): a storage event for the current key whose new value is empty or
absent resets the in-memory value to the resolved default — not to an error
state and not to a deserialization of the empty string (the conclusion is
the default for every `deserialize`), and without touching storage. -/
theorem storageChanged_cleared_resets {V : Type} (h : LiveHook V) (value : V)
    (st : StorageMap) (ev : StorageEvt)
    (h1 : ev.storageArea = StorageArea.localStorage)
    (h2 : ev.key = some h.cfg.key)
    (h3 : ev.newValue = none ∨ ev.newValue = some "")
    (h4 : ev.newValue ≠ some (h.cfg.serialize value)) :
    storageChanged h value st ev = (getDefaultValue h.cfg.defaultValue, st) := by
  have hguard : ¬(ev.storageArea ≠ StorageArea.localStorage ∨
      ev.key ≠ some h.cfg.key ∨
      ev.newValue = some (h.cfg.serialize value)) := by
    push_neg
    exact ⟨h1, h2, h4⟩
  simp only [storageChanged]
  rw [if_neg hguard]
  rcases h3 with h3 | h3 <;> simp [initFromStorageWith, h3]

/-- Concrete live hook used by the C7 theorems: identity serialization of
strings, default `"d"`, bound to `window.localStorage`. -/
def hkC7 : LiveHook String :=
  { cfg := { key := "k", defaultValue := .value "d", serialize := fun s => s,
             deserialize := fun s => .ok s, forceInit := fun _ => false },
    area := StorageArea.localStorage }

/-- C7 counterexample to the claim as stated: the current value is `""`
whose serialization is also `""`; a clearing event (`newValue = ""`) for the
current key is swallowed by the echo guard, so the value stays `""` instead
of resetting to the default `"d"`. -/
theorem storageChanged_cleared_echo_counterexample :
    (StorageEvt.mk StorageArea.localStorage (some "k") (some "")).newValue =
      some "" ∧
    storageChanged hkC7 "" [] (StorageEvt.mk StorageArea.localStorage
      (some "k") (some "")) = ("", []) ∧
    ("" : String) ≠ "d" := by decide

/-- C7 witness: clearing the stored `"old value"` resets the state to the
default `"d"` (the `when storage is cleared, value should reset` test). -/
theorem storageChanged_cleared_resets_witness :
    storageChanged hkC7 "old value" [("k", "old value")]
      (StorageEvt.mk StorageArea.localStorage (some "k") (some "")) =
      ("d", [("k", "old value")]) :=
  storageChanged_cleared_resets hkC7 "old value" [("k", "old value")]
    (StorageEvt.mk StorageArea.localStorage (some "k") (some ""))
    (by decide) (by decide) (by decide) (by decide)

/-- Concrete live hook used by the C2 theorem: the configured backend is
`sessionStorage`, yet the handler compares against `window.localStorage`. -/
def hkC2 : LiveHook String :=
  { cfg := { key := "k", defaultValue := .value "d", serialize := fun s => s,
             deserialize := fun s => .ok s, forceInit := fun _ => false },
    area := StorageArea.sessionStorage }

/-- C2 (code bug): the handler hardcodes
`event.storageArea !== window.localStorage` instead of comparing against the
configured backend.  With `storage: sessionStorage`, an event whose area is
`localStorage` (not the configured backend) is processed and replaces the
in-memory value `"v"` with `"w"`, violating the claimed ignore condition;
and the flip side: an event from the genuinely configured `sessionStorage`
area is ignored. -/
theorem storageChanged_area_hardcoded_bug :
    (StorageEvt.mk StorageArea.localStorage (some "k") (some "w")).storageArea
      ≠ hkC2.area ∧
    storageChanged hkC2 "v" []
      (StorageEvt.mk StorageArea.localStorage (some "k") (some "w")) =
      ("w", []) ∧
    ("w" : String) ≠ "v" ∧
    (StorageEvt.mk StorageArea.sessionStorage (some "k") (some "w")).storageArea
      = hkC2.area ∧
    storageChanged hkC2 "v" []
      (StorageEvt.mk StorageArea.sessionStorage (some "k") (some "w")) =
      ("v", []) := by decide

/-! ## JSON values (`JSON.stringify` / `JSON.parse` collaborator)

The hooks' default serialization is `JSON.stringify` / `JSON.parse`, and the
URL binder parses query parameters with `JSON.parse`.  The model covers the
JSON fragment the hooks exchange: null, booleans, integer numbers, strings
(with `"` and `\` escaping), arrays and objects.  The parser follows
`JSON.parse` on that fragment: insignificant whitespace is skipped around
every token, numerals with a leading zero are rejected (`JSON.parse("01")`
throws), trailing commas are rejected, raw control characters inside string
literals are rejected, and every text the model accepts is a JSON text that
`JSON.parse` accepts with the same value.  Outside the model (the parser
simply rejects, never disagreeing on an accepted value): floating point —
numerals with fraction or exponent parts, and the float value space
including signed zero; the escapes `\/ \b \f \n \r \t \uXXXX` (the printer
emits only `\"` and `\\`); objects with duplicate keys (which `JSON.parse`
collapses).  `wfJson` delimits the values whose printed form stays inside
the fragment: strings (and keys) without control characters, object keys
pairwise distinct. -/

/-- Decimal digit test on a character (`0` to `9`). -/
def isDig (c : Char) : Bool := 48 ≤ c.toNat && c.toNat ≤ 57

/-- The decimal digit character for `d < 10` (clamped at `'9'`). -/
def digitChar : Nat → Char
  | 0 => '0' | 1 => '1' | 2 => '2' | 3 => '3' | 4 => '4'
  | 5 => '5' | 6 => '6' | 7 => '7' | 8 => '8' | _ => '9'

/-- Numeric value of a digit character. -/
def charDigit (c : Char) : Nat := c.toNat - 48

/-- Decimal digits of `n`, most significant first (`f` is fuel `> n`). -/
def natDigitsGo : Nat → Nat → List Char
  | 0, _ => []
  | f + 1, n =>
    if n < 10 then [digitChar n]
    else natDigitsGo f (n / 10) ++ [digitChar (n % 10)]

/-- Decimal digits of `n`, most significant first. -/
def natDigits (n : Nat) : List Char := natDigitsGo (n + 1) n

/-- Left fold of decimal digits onto an accumulator. -/
def digitsVal : List Char → Nat → Nat
  | [], acc => acc
  | c :: cs, acc => digitsVal cs (acc * 10 + charDigit c)

/-- Split a maximal run of digit characters off the front. -/
def takeDigits : List Char → List Char × List Char
  | [] => ([], [])
  | c :: cs =>
    if isDig c then (c :: (takeDigits cs).1, (takeDigits cs).2)
    else ([], c :: cs)

/-- The list does not start with a digit (so a digit run before it is
maximal). -/
def noLeadDigit : List Char → Bool
  | [] => true
  | c :: _ => !isDig c

/-- JSON insignificant whitespace: space, tab, line feed, carriage return. -/
def isWs (c : Char) : Bool := c = ' ' ∨ c = '\t' ∨ c = '\n' ∨ c = '\r'

/-- Skip insignificant whitespace. -/
def skipWs : List Char → List Char
  | [] => []
  | c :: cs => if isWs c then skipWs cs else c :: cs

/-- A valid JSON integer numeral digit run: nonempty, and no leading zero
unless it is the single digit `0` (`JSON.parse("01")` throws). -/
def validNum : List Char → Bool
  | [] => false
  | [_] => true
  | c :: _ :: _ => c != '0'

/-- JSON string escaping of one character (`"` and `\`). -/
def escChar (c : Char) : List Char :=
  if c = '"' then ['\\', '"']
  else if c = '\\' then ['\\', '\\']
  else [c]

/-- JSON string escaping of a character list. -/
def escList : List Char → List Char
  | [] => []
  | c :: cs => escChar c ++ escList cs

/-- Parse a JSON string body up to the closing quote, undoing `escChar`.
Raw control characters are rejected, as `JSON.parse` rejects them; only the
escapes the printer emits (`\"`, `\\`) are accepted. -/
def parseStrBody : List Char → Option (List Char × List Char)
  | [] => none
  | c :: rest =>
    if c = '"' then some ([], rest)
    else if c = '\\' then
      match rest with
      | [] => none
      | e :: rest2 =>
        if e = '"' ∨ e = '\\' then
          match parseStrBody rest2 with
          | some (s, r) => some (e :: s, r)
          | none => none
        else none
    else if 32 ≤ c.toNat then
      match parseStrBody rest with
      | some (s, r) => some (c :: s, r)
      | none => none
    else none

mutual
/-- The modeled fragment of JavaScript/JSON values. -/
inductive Json where
  | null
  | bool (b : Bool)
  | num (n : Int)
  | str (s : String)
  | arr (xs : JsonList)
  | obj (xs : JsonFields)
deriving DecidableEq
/-- Elements of a JSON array. -/
inductive JsonList where
  | nil
  | cons (hd : Json) (tl : JsonList)
deriving DecidableEq
/-- Fields of a JSON object (in insertion order, as `JSON.stringify` emits
them). -/
inductive JsonFields where
  | nil
  | cons (k : String) (v : Json) (tl : JsonFields)
deriving DecidableEq
end

/-- Does an object field list already bind the key? -/
def hasKey : JsonFields → String → Bool
  | .nil, _ => false
  | .cons k _ tl, key => k == key || hasKey tl key

/-- No control character (code point below 32) in the list. -/
def noCtlL : List Char → Bool
  | [] => true
  | c :: cs => 32 ≤ c.toNat && noCtlL cs

/-- No control character in the string. -/
def noCtl (s : String) : Bool := noCtlL s.data

mutual
/-- The value stays inside the modeled JSON fragment: strings and object
keys contain no control characters, object keys are pairwise distinct. -/
def wfJson : Json → Bool
  | .null => true
  | .bool _ => true
  | .num _ => true
  | .str s => noCtl s
  | .arr xs => wfList xs
  | .obj xs => wfFields xs
/-- `wfJson` on array elements. -/
def wfList : JsonList → Bool
  | .nil => true
  | .cons v tl => wfJson v && wfList tl
/-- `wfJson` on object fields. -/
def wfFields : JsonFields → Bool
  | .nil => true
  | .cons k v tl => noCtl k && !(hasKey tl k) && wfJson v && wfFields tl
end

/-- Characters of the `null` keyword. -/
def nullChars : List Char := ['n', 'u', 'l', 'l']

/-- Characters of the `true` keyword. -/
def trueChars : List Char := ['t', 'r', 'u', 'e']

/-- Characters of the `false` keyword. -/
def falseChars : List Char := ['f', 'a', 'l', 's', 'e']

mutual
/-- `JSON.stringify` on the modeled fragment, as a character list. -/
def printVal : Json → List Char
  | .null => nullChars
  | .bool true => trueChars
  | .bool false => falseChars
  | .num n => if n < 0 then '-' :: natDigits n.natAbs else natDigits n.natAbs
  | .str s => '"' :: (escList s.data ++ ['"'])
  | .arr xs => '[' :: printItems xs
  | .obj xs => '{' :: printFields xs
/-- Array elements after the opening bracket, including the closing one. -/
def printItems : JsonList → List Char
  | .nil => [']']
  | .cons v tl => printVal v ++ printItemsTail tl
/-- Continuation after one array element: the closing bracket, or a comma
and the remaining elements. -/
def printItemsTail : JsonList → List Char
  | .nil => [']']
  | .cons v tl => ',' :: (printVal v ++ printItemsTail tl)
/-- Object fields after the opening brace, including the closing one. -/
def printFields : JsonFields → List Char
  | .nil => ['}']
  | .cons k v tl =>
    '"' :: (escList k.data ++ ('"' :: ':' :: (printVal v ++ printFieldsTail tl)))
/-- Continuation after one object field: the closing brace, or a comma and
the remaining fields. -/
def printFieldsTail : JsonFields → List Char
  | .nil => ['}']
  | .cons k v tl =>
    ',' :: ('"' :: (escList k.data ++ ('"' :: ':' :: (printVal v ++ printFieldsTail tl))))
end

mutual
/-- `JSON.parse` on the modeled fragment (recursive descent, fueled).
Insignificant whitespace is skipped before every token, as `JSON.parse`
does. -/
def parseVal : Nat → List Char → Option (Json × List Char)
  | 0, _ => none
  | fuel + 1, cs0 =>
    match skipWs cs0 with
    | [] => none
    | c :: cs =>
      if c = 'n' then
        match cs with
        | 'u' :: 'l' :: 'l' :: r => some (.null, r)
        | _ => none
      else if c = 't' then
        match cs with
        | 'r' :: 'u' :: 'e' :: r => some (.bool true, r)
        | _ => none
      else if c = 'f' then
        match cs with
        | 'a' :: 'l' :: 's' :: 'e' :: r => some (.bool false, r)
        | _ => none
      else if c = '"' then
        match parseStrBody cs with
        | some (s, r) => some (.str (String.mk s), r)
        | none => none
      else if c = '[' then
        match parseItems fuel cs with
        | some (xs, r) => some (.arr xs, r)
        | none => none
      else if c = '{' then
        match parseFields fuel cs with
        | some (xs, r) => some (.obj xs, r)
        | none => none
      else if c = '-' then
        if validNum (takeDigits cs).1 then
          some (.num (-((digitsVal (takeDigits cs).1 0 : Nat) : Int)),
            (takeDigits cs).2)
        else none
      else if isDig c then
        if validNum (takeDigits (c :: cs)).1 then
          some (.num ((digitsVal (takeDigits (c :: cs)).1 0 : Nat) : Int),
            (takeDigits (c :: cs)).2)
        else none
      else none
/-- Parse array elements after the opening bracket: the empty array, or a
first value followed by its continuation. -/
def parseItems : Nat → List Char → Option (JsonList × List Char)
  | 0, _ => none
  | fuel + 1, cs0 =>
    match skipWs cs0 with
    | [] => none
    | c :: cs =>
      if c = ']' then some (.nil, cs)
      else
        match parseVal fuel (c :: cs) with
        | none => none
        | some (v, r) =>
          match parseItemsTail fuel r with
          | some (xs, r2) => some (.cons v xs, r2)
          | none => none
/-- Continuation after one array element: the closing bracket, or a comma
followed by the next value and its continuation (so a trailing comma is
rejected, as `JSON.parse` rejects it). -/
def parseItemsTail : Nat → List Char → Option (JsonList × List Char)
  | 0, _ => none
  | fuel + 1, cs0 =>
    match skipWs cs0 with
    | [] => none
    | c :: cs =>
      if c = ']' then some (.nil, cs)
      else if c = ',' then
        match parseVal fuel cs with
        | none => none
        | some (v, r) =>
          match parseItemsTail fuel r with
          | some (xs, r2) => some (.cons v xs, r2)
          | none => none
      else none
/-- Parse object fields after the opening brace: the empty object, or a
first field and its continuation. -/
def parseFields : Nat → List Char → Option (JsonFields × List Char)
  | 0, _ => none
  | fuel + 1, cs0 =>
    match skipWs cs0 with
    | [] => none
    | c :: cs =>
      if c = '}' then some (.nil, cs)
      else if c = '"' then parseField1 fuel cs
      else none
/-- Continuation after one object field: the closing brace, or a comma and
the next field (trailing commas rejected). -/
def parseFieldsTail : Nat → List Char → Option (JsonFields × List Char)
  | 0, _ => none
  | fuel + 1, cs0 =>
    match skipWs cs0 with
    | [] => none
    | c :: cs =>
      if c = '}' then some (.nil, cs)
      else if c = ',' then
        match skipWs cs with
        | [] => none
        | c2 :: cs2 =>
          if c2 = '"' then parseField1 fuel cs2
          else none
      else none
/-- One field (the cursor just past the opening quote of the key): the key
string, a colon, the value, then the field continuation.  A duplicate key
makes the parse fail: objects with duplicate keys (which `JSON.parse`
collapses, last occurrence winning) are outside the model. -/
def parseField1 : Nat → List Char → Option (JsonFields × List Char)
  | 0, _ => none
  | fuel + 1, cs =>
    match parseStrBody cs with
    | none => none
    | some (k, r) =>
      match skipWs r with
      | [] => none
      | c2 :: r2 =>
        if c2 = ':' then
          match parseVal fuel r2 with
          | none => none
          | some (v, r3) =>
            match parseFieldsTail fuel r3 with
            | some (xs, r4) =>
              if hasKey xs (String.mk k) then none
              else some (.cons (String.mk k) v xs, r4)
            | none => none
        else none
end

mutual
/-- Fuel bound for `parseVal` (nesting depth measure). -/
def sizeVal : Json → Nat
  | .null => 1
  | .bool _ => 1
  | .num _ => 1
  | .str _ => 1
  | .arr xs => sizeItems xs + 1
  | .obj xs => sizeFields xs + 1
/-- Fuel bound for `parseItems`. -/
def sizeItems : JsonList → Nat
  | .nil => 1
  | .cons v tl => max (sizeVal v) (sizeItems tl) + 1
/-- Fuel bound for `parseFields` and `parseFieldsTail` (one extra level for
the `parseField1` indirection). -/
def sizeFields : JsonFields → Nat
  | .nil => 1
  | .cons _ v tl => max (sizeVal v) (sizeFields tl) + 2
end

theorem mk_data (s : String) : String.mk s.data = s := by cases s; rfl

theorem charDigit_digitChar (d : Nat) (h : d < 10) :
    charDigit (digitChar d) = d := by
  interval_cases d <;> decide

theorem isDig_digitChar (d : Nat) (h : d < 10) :
    isDig (digitChar d) = true := by
  interval_cases d <;> decide

theorem digitsVal_append (xs ys : List Char) (acc : Nat) :
    digitsVal (xs ++ ys) acc = digitsVal ys (digitsVal xs acc) := by
  induction xs generalizing acc with
  | nil => simp [digitsVal]
  | cons c t ih => simp [digitsVal, ih]

theorem natDigitsGo_ne_nil (f n : Nat) (h : n < f) : natDigitsGo f n ≠ [] := by
  cases f with
  | zero => omega
  | succ f => by_cases h10 : n < 10 <;> simp [natDigitsGo, h10]

theorem natDigitsGo_digits (f : Nat) : ∀ n, n < f →
    ∀ c ∈ natDigitsGo f n, isDig c = true := by
  induction f with
  | zero => intro n h; omega
  | succ f ih =>
    intro n h c hc
    by_cases h10 : n < 10
    · simp [natDigitsGo, h10] at hc
      subst hc; exact isDig_digitChar n h10
    · simp [natDigitsGo, h10] at hc
      rcases hc with hc | hc
      · exact ih (n / 10) (by omega) c hc
      · subst hc; exact isDig_digitChar (n % 10) (by omega)

theorem digitsVal_natDigitsGo (f : Nat) : ∀ n acc, n < f →
    digitsVal (natDigitsGo f n) acc =
      acc * 10 ^ (natDigitsGo f n).length + n := by
  induction f with
  | zero => intro n acc h; omega
  | succ f ih =>
    intro n acc h
    by_cases h10 : n < 10
    · simp [natDigitsGo, h10, digitsVal, charDigit_digitChar n h10]
    · simp only [natDigitsGo, if_neg h10]
      rw [digitsVal_append, ih (n / 10) acc (by omega)]
      simp only [digitsVal, charDigit_digitChar (n % 10) (by omega),
        List.length_append, List.length_cons, List.length_nil]
      rw [pow_succ, ← mul_assoc]
      generalize acc * 10 ^ (natDigitsGo f (n / 10)).length = Q
      omega

theorem natDigits_ne_nil (n : Nat) : natDigits n ≠ [] :=
  natDigitsGo_ne_nil (n + 1) n (by omega)

theorem natDigits_digits (n : Nat) : ∀ c ∈ natDigits n, isDig c = true :=
  natDigitsGo_digits (n + 1) n (by omega)

theorem digitsVal_natDigits (n : Nat) : digitsVal (natDigits n) 0 = n := by
  have := digitsVal_natDigitsGo (n + 1) n 0 (by omega)
  simpa [natDigits] using this

theorem takeDigits_append (ds rest : List Char)
    (h1 : ∀ c ∈ ds, isDig c = true) (h2 : noLeadDigit rest = true) :
    takeDigits (ds ++ rest) = (ds, rest) := by
  induction ds with
  | nil =>
    simp only [List.nil_append]
    cases rest with
    | nil => rfl
    | cons c t =>
      simp only [noLeadDigit, Bool.not_eq_true'] at h2
      simp [takeDigits, h2]
  | cons d ds ih =>
    have hd : isDig d = true := h1 d (by simp)
    have ihh := ih (fun c hc => h1 c (by simp [hc]))
    simp [takeDigits, hd, ihh]

theorem parseStrBody_quote (rest : List Char) :
    parseStrBody ('"' :: rest) = some ([], rest) := by
  cases rest <;> rfl

theorem parseStrBody_esc (e : Char) (rest2 : List Char)
    (h : e = '"' ∨ e = '\\') :
    parseStrBody ('\\' :: e :: rest2) =
      match parseStrBody rest2 with
      | some (s, r) => some (e :: s, r)
      | none => none := by
  rcases h with h | h <;> subst h <;> rfl

theorem parseStrBody_other (c : Char) (rest : List Char) (h1 : c ≠ '"')
    (h2 : c ≠ '\\') (h3 : 32 ≤ c.toNat) :
    parseStrBody (c :: rest) =
      match parseStrBody rest with
      | some (s, r) => some (c :: s, r)
      | none => none := by
  cases rest with
  | nil => simp [parseStrBody, h1, h2, h3]
  | cons x xs => simp [parseStrBody, h1, h2, h3]

theorem parseStrBody_escList (cs rest : List Char)
    (hctl : ∀ c ∈ cs, 32 ≤ c.toNat) :
    parseStrBody (escList cs ++ '"' :: rest) = some (cs, rest) := by
  induction cs with
  | nil => simpa [escList] using parseStrBody_quote rest
  | cons c t ih =>
    have iht := ih (fun x hx => hctl x (by simp [hx]))
    by_cases hq : c = '"'
    · subst hq
      simp only [escList]
      rw [show escChar '"' = ['\\', '"'] from rfl]
      simp only [List.cons_append, List.nil_append]
      rw [parseStrBody_esc _ _ (Or.inl rfl), iht]
    · by_cases hb : c = '\\'
      · subst hb
        simp only [escList]
        rw [show escChar '\\' = ['\\', '\\'] from rfl]
        simp only [List.cons_append, List.nil_append]
        rw [parseStrBody_esc _ _ (Or.inr rfl), iht]
      · have hc32 : 32 ≤ c.toNat := hctl c (by simp)
        simp only [escList, escChar, if_neg hq, if_neg hb, List.cons_append,
          List.append_assoc, List.nil_append]
        rw [parseStrBody_other c _ hq hb hc32, iht]

theorem skipWs_cons (c : Char) (cs : List Char) (h : isWs c = false) :
    skipWs (c :: cs) = c :: cs := by
  simp [skipWs, h]

theorem noCtlL_spec (cs : List Char) (h : noCtlL cs = true) :
    ∀ c ∈ cs, 32 ≤ c.toNat := by
  induction cs with
  | nil => intro c hc; simp at hc
  | cons x xs ih =>
    simp only [noCtlL, Bool.and_eq_true, decide_eq_true_eq] at h
    intro c hc
    rcases List.mem_cons.mp hc with rfl | hc
    · exact h.1
    · exact ih h.2 c hc

/-- Characters a printed JSON value can start with (exactly the characters
that can start a JSON text). -/
def leadOk (c : Char) : Bool :=
  c == 'n' || c == 't' || c == 'f' || c == '"' || c == '[' || c == '{' ||
    c == '-' || isDig c

theorem leadOk_ne_rbrack {c : Char} (h : leadOk c = true) : c ≠ ']' := by
  rintro rfl; exact absurd h (by decide)

theorem leadOk_ne_rbrace {c : Char} (h : leadOk c = true) : c ≠ '}' := by
  rintro rfl; exact absurd h (by decide)

theorem leadOk_not_ws {c : Char} (h : leadOk c = true) : isWs c = false := by
  cases hws : isWs c with
  | false => rfl
  | true =>
    exfalso
    simp only [isWs, decide_eq_true_eq] at hws
    rcases hws with rfl | rfl | rfl | rfl <;> exact absurd h (by decide)

theorem isDig_not_ws (c : Char) (h : isDig c = true) : isWs c = false := by
  cases hws : isWs c with
  | false => rfl
  | true =>
    exfalso
    simp only [isWs, decide_eq_true_eq] at hws
    rcases hws with rfl | rfl | rfl | rfl <;> exact absurd h (by decide)

theorem printVal_lead (v : Json) :
    ∃ c tl, printVal v = c :: tl ∧ leadOk c = true := by
  cases v with
  | null => exact ⟨'n', _, rfl, by decide⟩
  | bool b =>
    cases b
    · exact ⟨'f', _, rfl, by decide⟩
    · exact ⟨'t', _, rfl, by decide⟩
  | num n =>
    by_cases hn : n < 0
    · refine ⟨'-', natDigits n.natAbs, ?_, by decide⟩
      simp [printVal, hn]
    · obtain ⟨c, tl, hct⟩ : ∃ c tl, natDigits n.natAbs = c :: tl := by
        cases hnd : natDigits n.natAbs with
        | nil => exact absurd hnd (natDigits_ne_nil n.natAbs)
        | cons c tl => exact ⟨c, tl, rfl⟩
      have hdig : isDig c = true := natDigits_digits n.natAbs c (by simp [hct])
      exact ⟨c, tl, by simp [printVal, hn, hct], by simp [leadOk, hdig]⟩
  | str s => exact ⟨'"', _, rfl, by decide⟩
  | arr xs => exact ⟨'[', _, rfl, by decide⟩
  | obj xs => exact ⟨'{', _, rfl, by decide⟩

theorem printVal_length_pos (v : Json) : 0 < (printVal v).length := by
  obtain ⟨c, tl, hc, -⟩ := printVal_lead v
  simp [hc]

mutual
theorem sizeVal_pos (v : Json) : 0 < sizeVal v := by
  cases v <;> simp [sizeVal]
theorem sizeItems_pos (xs : JsonList) : 0 < sizeItems xs := by
  cases xs <;> simp [sizeItems]
theorem sizeFields_pos (xs : JsonFields) : 0 < sizeFields xs := by
  cases xs <;> simp [sizeFields]
end

theorem isDig_not_lit (c : Char) (h : isDig c = true) :
    c ≠ 'n' ∧ c ≠ 't' ∧ c ≠ 'f' ∧ c ≠ '"' ∧ c ≠ '[' ∧ c ≠ '{' ∧ c ≠ '-' := by
  refine ⟨?_, ?_, ?_, ?_, ?_, ?_, ?_⟩ <;>
    (rintro rfl; exact absurd h (by decide))

theorem natDigitsGo_head_ne_zero (f : Nat) : ∀ n, n < f → 1 ≤ n →
    (natDigitsGo f n).head? ≠ some '0' := by
  induction f with
  | zero => intro n h; omega
  | succ f ih =>
    intro n h h1
    by_cases h10 : n < 10
    · simp [natDigitsGo, h10]
      interval_cases n <;> decide
    · obtain ⟨c, cs, hc⟩ : ∃ c cs, natDigitsGo f (n / 10) = c :: cs := by
        cases hnd : natDigitsGo f (n / 10) with
        | nil => exact absurd hnd (natDigitsGo_ne_nil f (n / 10) (by omega))
        | cons c cs => exact ⟨c, cs, rfl⟩
      have hrec := ih (n / 10) (by omega) (by omega)
      rw [hc] at hrec
      simp only [natDigitsGo, if_neg h10, hc, List.cons_append,
        List.head?_cons]
      simpa using hrec

theorem validNum_natDigits (n : Nat) : validNum (natDigits n) = true := by
  by_cases h10 : n < 10
  · simp [natDigits, natDigitsGo, h10, validNum]
  · obtain ⟨c, cs, hc⟩ : ∃ c cs, natDigitsGo n (n / 10) = c :: cs := by
      cases hnd : natDigitsGo n (n / 10) with
      | nil => exact absurd hnd (natDigitsGo_ne_nil n (n / 10) (by omega))
      | cons c cs => exact ⟨c, cs, rfl⟩
    have hne : c ≠ '0' := by
      have hh := natDigitsGo_head_ne_zero n (n / 10) (by omega) (by omega)
      rw [hc] at hh
      simpa using hh
    have hexp : natDigits n = c :: (cs ++ [digitChar (n % 10)]) := by
      simp [natDigits, natDigitsGo, h10, hc]
    rw [hexp]
    cases cs with
    | nil => simp [validNum, hne]
    | cons c2 cs2 => simp [validNum, hne]

mutual
theorem parseVal_printVal (v : Json) (fuel : Nat) (hf : sizeVal v ≤ fuel)
    (rest : List Char) (hr : noLeadDigit rest = true)
    (hw : wfJson v = true) :
    parseVal fuel (printVal v ++ rest) = some (v, rest) := by
  cases fuel with
  | zero => exact absurd hf (by have := sizeVal_pos v; omega)
  | succ f =>
    cases v with
    | null => simp [printVal, nullChars, parseVal, skipWs, isWs]
    | bool b =>
      cases b <;>
        simp [printVal, trueChars, falseChars, parseVal, skipWs, isWs]
    | num n =>
      have hds := takeDigits_append (natDigits n.natAbs) rest
        (natDigits_digits _) hr
      have hvn := validNum_natDigits n.natAbs
      by_cases hn : n < 0
      · simp only [printVal, if_pos hn, List.cons_append]
        simp [parseVal, skipWs, isWs, hds, hvn, digitsVal_natDigits]
        rw [abs_of_neg hn]
        ring
      · obtain ⟨c, ctl, hct⟩ : ∃ c ctl, natDigits n.natAbs = c :: ctl := by
          cases hnd : natDigits n.natAbs with
          | nil => exact absurd hnd (natDigits_ne_nil n.natAbs)
          | cons c ctl => exact ⟨c, ctl, rfl⟩
        have hdigc : isDig c = true :=
          natDigits_digits n.natAbs c (by simp [hct])
        obtain ⟨hn', ht', hf', hq', hb', hc', hm'⟩ := isDig_not_lit c hdigc
        have hds' : takeDigits (c :: (ctl ++ rest)) =
            (natDigits n.natAbs, rest) := by
          rw [show c :: (ctl ++ rest) = natDigits n.natAbs ++ rest by
            rw [hct]; simp]
          exact hds
        simp only [printVal, if_neg hn, hct, List.cons_append]
        simp only [parseVal]
        rw [skipWs_cons _ _ (isDig_not_ws c hdigc)]
        simp [hn', ht', hf', hq', hb', hc', hm', hdigc, hds', hvn,
          digitsVal_natDigits]
        omega
    | str s =>
      have hctl : ∀ c ∈ s.data, 32 ≤ c.toNat :=
        noCtlL_spec s.data (by simpa [wfJson, noCtl] using hw)
      simp only [printVal, List.cons_append, List.append_assoc,
        List.singleton_append]
      simp [parseVal, skipWs, isWs, parseStrBody_escList s.data rest hctl,
        mk_data]
    | arr xs =>
      have hsz : sizeItems xs ≤ f := by simp [sizeVal] at hf; omega
      have hwx : wfList xs = true := by simpa [wfJson] using hw
      simp only [printVal, List.cons_append]
      simp [parseVal, skipWs, isWs, parseItems_printItems xs f hsz rest hwx]
    | obj xs =>
      have hsz : sizeFields xs ≤ f := by simp [sizeVal] at hf; omega
      have hwx : wfFields xs = true := by simpa [wfJson] using hw
      simp only [printVal, List.cons_append]
      simp [parseVal, skipWs, isWs,
        parseFields_printFields xs f hsz rest hwx]

theorem parseItems_printItems (xs : JsonList) (fuel : Nat)
    (hf : sizeItems xs ≤ fuel) (rest : List Char)
    (hw : wfList xs = true) :
    parseItems fuel (printItems xs ++ rest) = some (xs, rest) := by
  cases fuel with
  | zero => exact absurd hf (by have := sizeItems_pos xs; omega)
  | succ f =>
    cases xs with
    | nil => simp [printItems, parseItems, skipWs, isWs]
    | cons v tl =>
      obtain ⟨c, ctl, hv, hlead⟩ := printVal_lead v
      have hszv : sizeVal v ≤ f := by simp [sizeItems] at hf; omega
      have hsztl : sizeItems tl ≤ f := by simp [sizeItems] at hf; omega
      obtain ⟨hwv, hwtl⟩ : wfJson v = true ∧ wfList tl = true := by
        simpa [wfList] using hw
      have hnl : noLeadDigit (printItemsTail tl ++ rest) = true := by
        cases tl <;> simp [printItemsTail, noLeadDigit, isDig]
      have hval := parseVal_printVal v f hszv (printItemsTail tl ++ rest)
        hnl hwv
      have htail := parseItemsTail_printItemsTail tl f hsztl rest hwtl
      simp only [printItems, List.append_assoc]
      rw [hv]
      simp only [List.cons_append]
      simp only [parseItems]
      rw [skipWs_cons _ _ (leadOk_not_ws hlead)]
      simp only [leadOk_ne_rbrack hlead, if_false, reduceIte]
      rw [show c :: (ctl ++ (printItemsTail tl ++ rest)) =
            printVal v ++ (printItemsTail tl ++ rest) by rw [hv]; simp]
      rw [hval]
      simp [htail]

theorem parseItemsTail_printItemsTail (xs : JsonList) (fuel : Nat)
    (hf : sizeItems xs ≤ fuel) (rest : List Char)
    (hw : wfList xs = true) :
    parseItemsTail fuel (printItemsTail xs ++ rest) = some (xs, rest) := by
  cases fuel with
  | zero => exact absurd hf (by have := sizeItems_pos xs; omega)
  | succ f =>
    cases xs with
    | nil => simp [printItemsTail, parseItemsTail, skipWs, isWs]
    | cons v tl =>
      have hszv : sizeVal v ≤ f := by simp [sizeItems] at hf; omega
      have hsztl : sizeItems tl ≤ f := by simp [sizeItems] at hf; omega
      obtain ⟨hwv, hwtl⟩ : wfJson v = true ∧ wfList tl = true := by
        simpa [wfList] using hw
      have hnl : noLeadDigit (printItemsTail tl ++ rest) = true := by
        cases tl <;> simp [printItemsTail, noLeadDigit, isDig]
      have hval := parseVal_printVal v f hszv (printItemsTail tl ++ rest)
        hnl hwv
      have htail := parseItemsTail_printItemsTail tl f hsztl rest hwtl
      simp only [printItemsTail, List.cons_append, List.append_assoc]
      simp [parseItemsTail, skipWs, isWs, hval, htail]

theorem parseFields_printFields (xs : JsonFields) (fuel : Nat)
    (hf : sizeFields xs ≤ fuel) (rest : List Char)
    (hw : wfFields xs = true) :
    parseFields fuel (printFields xs ++ rest) = some (xs, rest) := by
  cases fuel with
  | zero => exact absurd hf (by have := sizeFields_pos xs; omega)
  | succ f =>
    cases xs with
    | nil => simp [printFields, parseFields, skipWs, isWs]
    | cons k v tl =>
      obtain ⟨⟨⟨hk1, hk2⟩, hk3⟩, hk4⟩ :
          ((noCtl k = true ∧ hasKey tl k = false) ∧ wfJson v = true) ∧
            wfFields tl = true := by
        simpa [wfFields, and_assoc] using hw
      have hfm : max (sizeVal v) (sizeFields tl) + 1 ≤ f := by
        simp [sizeFields] at hf; omega
      cases f with
      | zero => omega
      | succ g =>
        have hszv : sizeVal v ≤ g := by omega
        have hsztl : sizeFields tl ≤ g := by omega
        have hctl := noCtlL_spec k.data (by simpa [noCtl] using hk1)
        have hnl : noLeadDigit (printFieldsTail tl ++ rest) = true := by
          cases tl <;> simp [printFieldsTail, noLeadDigit, isDig]
        have hval := parseVal_printVal v g hszv (printFieldsTail tl ++ rest)
          hnl hk3
        have htail := parseFieldsTail_printFieldsTail tl g hsztl rest hk4
        simp only [printFields, List.cons_append, List.append_assoc]
        simp [parseFields, parseField1, skipWs, isWs,
          parseStrBody_escList k.data _ hctl, hval, htail, mk_data, hk2]

theorem parseFieldsTail_printFieldsTail (xs : JsonFields) (fuel : Nat)
    (hf : sizeFields xs ≤ fuel) (rest : List Char)
    (hw : wfFields xs = true) :
    parseFieldsTail fuel (printFieldsTail xs ++ rest) = some (xs, rest) := by
  cases fuel with
  | zero => exact absurd hf (by have := sizeFields_pos xs; omega)
  | succ f =>
    cases xs with
    | nil => simp [printFieldsTail, parseFieldsTail, skipWs, isWs]
    | cons k v tl =>
      obtain ⟨⟨⟨hk1, hk2⟩, hk3⟩, hk4⟩ :
          ((noCtl k = true ∧ hasKey tl k = false) ∧ wfJson v = true) ∧
            wfFields tl = true := by
        simpa [wfFields, and_assoc] using hw
      have hfm : max (sizeVal v) (sizeFields tl) + 1 ≤ f := by
        simp [sizeFields] at hf; omega
      cases f with
      | zero => omega
      | succ g =>
        have hszv : sizeVal v ≤ g := by omega
        have hsztl : sizeFields tl ≤ g := by omega
        have hctl := noCtlL_spec k.data (by simpa [noCtl] using hk1)
        have hnl : noLeadDigit (printFieldsTail tl ++ rest) = true := by
          cases tl <;> simp [printFieldsTail, noLeadDigit, isDig]
        have hval := parseVal_printVal v g hszv (printFieldsTail tl ++ rest)
          hnl hk3
        have htail := parseFieldsTail_printFieldsTail tl g hsztl rest hk4
        simp only [printFieldsTail, List.cons_append, List.append_assoc]
        simp [parseFieldsTail, parseField1, skipWs, isWs,
          parseStrBody_escList k.data _ hctl, hval, htail, mk_data, hk2]
end

mutual
theorem sizeVal_le_length (v : Json) : sizeVal v ≤ (printVal v).length := by
  cases v with
  | null => simp [sizeVal, printVal, nullChars]
  | bool b => cases b <;> simp [sizeVal, printVal, trueChars, falseChars]
  | num n =>
    have hpos : 0 < (natDigits n.natAbs).length :=
      List.length_pos.mpr (natDigits_ne_nil n.natAbs)
    by_cases hn : n < 0 <;> (simp [sizeVal, printVal, hn]; try omega)
  | str s => simp [sizeVal, printVal]
  | arr xs =>
    have h := sizeItems_le_length xs
    simp [sizeVal, printVal]
    omega
  | obj xs =>
    have h := sizeFields_le_length xs
    simp [sizeVal, printVal]
    omega
theorem sizeItems_le_length (xs : JsonList) :
    sizeItems xs ≤ (printItems xs).length := by
  cases xs with
  | nil => simp [sizeItems, printItems]
  | cons v tl =>
    have hv := sizeVal_le_length v
    have hvpos := printVal_length_pos v
    have htl := sizeItems_le_lengthTail tl
    have htlpos : 0 < (printItemsTail tl).length := by
      cases tl <;> simp [printItemsTail]
    simp only [sizeItems, printItems, List.length_append]
    omega
theorem sizeItems_le_lengthTail (xs : JsonList) :
    sizeItems xs ≤ (printItemsTail xs).length := by
  cases xs with
  | nil => simp [sizeItems, printItemsTail]
  | cons v tl =>
    have hv := sizeVal_le_length v
    have htl := sizeItems_le_lengthTail tl
    simp only [sizeItems, printItemsTail, List.length_cons,
      List.length_append]
    omega
theorem sizeFields_le_length (xs : JsonFields) :
    sizeFields xs ≤ (printFields xs).length := by
  cases xs with
  | nil => simp [sizeFields, printFields]
  | cons k v tl =>
    have hv := sizeVal_le_length v
    have htl := sizeFields_le_lengthTail tl
    simp only [sizeFields, printFields, List.length_cons,
      List.length_append]
    omega
theorem sizeFields_le_lengthTail (xs : JsonFields) :
    sizeFields xs ≤ (printFieldsTail xs).length := by
  cases xs with
  | nil => simp [sizeFields, printFieldsTail]
  | cons k v tl =>
    have hv := sizeVal_le_length v
    have htl := sizeFields_le_lengthTail tl
    simp only [sizeFields, printFieldsTail, List.length_cons,
      List.length_append]
    omega
end

/-- `JSON.stringify` on the modeled fragment. -/
def jsonStringify (v : Json) : String := String.mk (printVal v)

/-- `JSON.parse`: parse one value, allow trailing whitespace, reject any
other trailing text; `none` models a thrown `SyntaxError`. -/
def jsonParse (s : String) : Option Json :=
  match parseVal (s.data.length + 1) s.data with
  | some (v, r) => if skipWs r = [] then some v else none
  | none => none

theorem jsonParse_jsonStringify (v : Json) (hw : wfJson v = true) :
    jsonParse (jsonStringify v) = some v := by
  have h := parseVal_printVal v ((printVal v).length + 1)
    (by have := sizeVal_le_length v; omega) [] rfl hw
  simp only [List.append_nil] at h
  simp [jsonParse, jsonStringify, h, skipWs]

/-- Conservative syntactic check that `JSON.parse` must throw on `s`: after
leading whitespace the text is empty or does not begin with any character
that can start a JSON text (`{`, `[`, `"`, `-`, a digit, `t`, `f`, `n`).
Every JSON text begins with one of those after whitespace, so this check
implies the program's `JSON.parse(s)` throws — and the model's `jsonParse`
agrees and fails. -/
def cannotBeJson (s : String) : Bool :=
  match skipWs s.data with
  | [] => true
  | c :: _ => !leadOk c

theorem jsonParse_none_of_cannotBeJson (s : String)
    (h : cannotBeJson s = true) : jsonParse s = none := by
  unfold jsonParse
  cases hsk : skipWs s.data with
  | nil => simp [parseVal, hsk]
  | cons c cs =>
    have hl : leadOk c = false := by
      simp only [cannotBeJson, hsk, Bool.not_eq_true'] at h
      exact h
    have h1 : c ≠ 'n' := fun hc => by subst hc; exact absurd hl (by decide)
    have h2 : c ≠ 't' := fun hc => by subst hc; exact absurd hl (by decide)
    have h3 : c ≠ 'f' := fun hc => by subst hc; exact absurd hl (by decide)
    have h4 : c ≠ '"' := fun hc => by subst hc; exact absurd hl (by decide)
    have h5 : c ≠ '[' := fun hc => by subst hc; exact absurd hl (by decide)
    have h6 : c ≠ '{' := fun hc => by subst hc; exact absurd hl (by decide)
    have h7 : c ≠ '-' := fun hc => by subst hc; exact absurd hl (by decide)
    have h8 : isDig c = false := by
      cases hd : isDig c with
      | false => rfl
      | true =>
        rw [show leadOk c = true by simp [leadOk, hd]] at hl
        exact absurd hl (by decide)
    simp [parseVal, hsk, h1, h2, h3, h4, h5, h6, h7, h8]

/-! ## The `useUrlStorageState` hook (URL binder)

Source: src/src/use-url-storage-state/use-url-storage-state.ts. -/

/-- `serializeState` (lines 89-94): strings pass through unchanged,
everything else is `JSON.stringify`ed. -/
def serializeState : Json → String
  | .str s => s
  | .null => jsonStringify .null
  | .bool b => jsonStringify (.bool b)
  | .num n => jsonStringify (.num n)
  | .arr xs => jsonStringify (.arr xs)
  | .obj xs => jsonStringify (.obj xs)

theorem serializeState_str (s : String) : serializeState (.str s) = s := rfl

/-- The URL binder's deserialization of a parameter value (the `useMemo`,
lines 74-84): `JSON.parse` when it succeeds, else the raw string. -/
def parseParam (p : String) : Json :=
  match jsonParse p with
  | some v => v
  | none => .str p

/-- The values on which the binder's `serializeState` / parameter
deserialization pair provably round-trips: strings on which `JSON.parse`
must throw (`cannotBeJson`, a conservative syntactic check), and non-string
values inside the modeled fragment (`wfJson`). -/
def safeDefault : Json → Bool
  | .str s => cannotBeJson s
  | .null => true
  | .bool _ => true
  | .num _ => true
  | .arr xs => wfJson (.arr xs)
  | .obj xs => wfJson (.obj xs)

theorem parseParam_serializeState (v : Json) (h : safeDefault v = true) :
    parseParam (serializeState v) = v := by
  cases v with
  | str s =>
    have hn := jsonParse_none_of_cannotBeJson s
      (by simpa [safeDefault] using h)
    simp [serializeState, parseParam, hn]
  | null =>
    simp [serializeState, parseParam,
      jsonParse_jsonStringify Json.null (by decide)]
  | bool b =>
    simp [serializeState, parseParam,
      jsonParse_jsonStringify (Json.bool b) (by simp [wfJson])]
  | num n =>
    simp [serializeState, parseParam,
      jsonParse_jsonStringify (Json.num n) (by simp [wfJson])]
  | arr xs =>
    have hr := jsonParse_jsonStringify (Json.arr xs)
      (by simpa [safeDefault] using h)
    simp [serializeState, parseParam, hr]
  | obj xs =>
    have hr := jsonParse_jsonStringify (Json.obj xs)
      (by simpa [safeDefault] using h)
    simp [serializeState, parseParam, hr]

/-- `[a-z0-9]` of the kebabize regex. -/
def isLowerDigit (c : Char) : Bool :=
  ('a' ≤ c && c ≤ 'z') || ('0' ≤ c && c ≤ '9')

/-- `[A-Z]` of the kebabize regex. -/
def isUpper (c : Char) : Bool := 'A' ≤ c && c ≤ 'Z'

/-- The global replace
`replace(/([a-z0-9]|(?=[A-Z]))([A-Z])/g, '$1-$2')` of `kebabize`
(use-storage.test.tsx lines 294-298) as a left-to-right scan: a
lowercase/digit directly followed by an uppercase letter is kept with a
hyphen inserted between them (both consumed); an uppercase letter not
consumed that way matches via the lookahead alternative and gets a hyphen
before it; all other characters are kept. -/
def kebabCore : List Char → List Char
  | [] => []
  | [c] =>
    if isLowerDigit c then [c]
    else if isUpper c then ['-', c]
    else [c]
  | c :: d :: rest =>
    if isLowerDigit c then
      (if isUpper d then c :: '-' :: d :: kebabCore rest
       else c :: kebabCore (d :: rest))
    else if isUpper c then '-' :: c :: kebabCore (d :: rest)
    else c :: kebabCore (d :: rest)

/-- `kebabize`: the regex replace followed by `.toLowerCase()`. -/
def kebabize (s : String) : String :=
  String.mk ((kebabCore s.data).map Char.toLower)

/-! ## URL parameters (`URLSearchParams` / navigation collaborator) -/

/-- Decoded query parameters of the current location
(percent-encoding by the standard query-string encoder is outside the
model). -/
abbrev UrlParams := List (String × String)

/-- `searchParams.get(name)`: first value, or `null`. -/
def getParam (ps : UrlParams) (k : String) : Option String := getItem ps k

/-- `searchParams.set(name, value)`: replace the first binding in place and
drop any others, or append. -/
def setParam : UrlParams → String → String → UrlParams
  | [], k, v => [(k, v)]
  | (a, b) :: rest, k, v =>
    if a = k then (k, v) :: removeItem rest k
    else (a, b) :: setParam rest k v

/-- A navigation: `navigate(..., { replace: true })` versus a plain
`navigate(...)` that adds a history entry. -/
inductive NavMode where
  | push
  | replace
deriving DecidableEq

theorem removeItem_removeItem (st : StorageMap) (k : String) :
    removeItem (removeItem st k) k = removeItem st k := by
  induction st with
  | nil => rfl
  | cons hd tl ih =>
    obtain ⟨a, b⟩ := hd
    by_cases h : a = k <;> simp [removeItem, h, ih]

theorem getParam_setParam_self (ps : UrlParams) (k v : String) :
    getParam (setParam ps k v) k = some v := by
  simp only [getParam]
  induction ps with
  | nil => simp [setParam, getItem]
  | cons hd tl ih =>
    obtain ⟨a, b⟩ := hd
    by_cases h : a = k <;> simp [setParam, getItem, h, ih]

theorem setParam_setParam (ps : UrlParams) (k a b : String) :
    setParam (setParam ps k a) k b = setParam ps k b := by
  induction ps with
  | nil => simp [setParam, removeItem]
  | cons hd tl ih =>
    obtain ⟨x, y⟩ := hd
    by_cases h : x = k <;>
      simp [setParam, h, ih, removeItem_removeItem]

/-! ## The `useUrlStorageState` reactive model

`useUrlStorageState` composes `useStorage` (string-typed state, custom
serialization) with two URL effects.  A mounted instance's reactive state
is `(location.search, storage contents, storage state, prevKeyRef)`.  One
render round runs the three effects in declaration order on that state:

  1. the `useStorage` commit effect (use-storage.test.tsx lines 247-254);
  2. populate the URL parameter from the storage state when the parameter
     is absent or empty (use-url-storage-state.ts lines 35-43) — a replace
     navigation, visible to the next round;
  3. adopt a present (truthy) URL parameter into the storage state
     (lines 45-54, `setStorageState(keyParam)`) — a state update, visible
     to the next round.

Both URL effects read the `location.search` the round started with.  Each
effect is idempotent, so the round function may run all three even when a
dependency array would have skipped one: a skipped effect re-run leaves the
state components it writes unchanged. -/

/-- Configuration of one `useUrlStorageState` instance.  `pfx` models the
optional `prefix` prop. -/
structure BinderConfig where
  key : String
  defaultValue : Json
  pfx : Option String

/-- The derived storage key (lines 23-25): `` prefix_key `` when the
`prefix` prop is truthy, else `` urlStorage_pathname_key ``. -/
def storageKeyOf (pfx : Option String) (pathname key : String) : String :=
  if truthy pfx then pfx.getD "" ++ "_" ++ key
  else "urlStorage_" ++ pathname ++ "_" ++ key

/-- The `useStorage` configuration built at lines 27-33: derived key,
default value `serializeState(defaultValue)` (a plain value, not a
producer), `serialize: serializeState` on the string-typed state,
`deserialize: identity` (never throws), `forceInit` left at its default
`never`. -/
def binderStorageCfg (cfg : BinderConfig) (pathname : String) :
    StorageConfig String :=
  { key := storageKeyOf cfg.pfx pathname cfg.key
    defaultValue := .value (serializeState cfg.defaultValue)
    serialize := fun s => serializeState (.str s)
    deserialize := fun s => .ok s
    forceInit := fun _ => false }

/-- Reactive state of one mounted `useUrlStorageState` instance. -/
structure BinderState where
  search : UrlParams
  storage : StorageMap
  storageState : String
  prevKey : String
deriving DecidableEq

/-- First render: `useState(initFromStorage)` resolves the initial storage
state; `prevKeyRef` starts at the current derived key. -/
def binderMount (cfg : BinderConfig) (pathname : String) (url0 : UrlParams)
    (st0 : StorageMap) : BinderState :=
  let scfg := binderStorageCfg cfg pathname
  let r := initFromStorage scfg st0
  { search := url0, storage := r.2, storageState := r.1, prevKey := scfg.key }

/-- One render-and-effects round of the mounted hook (see the section
comment). -/
def binderPass (cfg : BinderConfig) (pathname : String) (s : BinderState) :
    BinderState :=
  let scfg := binderStorageCfg cfg pathname
  let c := commitEffect scfg.serialize scfg.key s.storageState s.storage
    s.prevKey
  let p := getParam s.search (kebabize cfg.key)
  let search1 :=
    if truthy p then s.search
    else setParam s.search (kebabize cfg.key) s.storageState
  let v1 :=
    match p with
    | some q => if q ≠ "" then q else s.storageState
    | none => s.storageState
  { search := search1, storage := c.1, storageState := v1, prevKey := c.2 }

/-- The navigation issued by effect 2 during a round: a replace navigation
when the parameter is absent/empty (`navigate(..., { replace: true })`,
line 41), nothing otherwise.  No mount-flow effect ever pushes. -/
def binderPassNav (cfg : BinderConfig) (s : BinderState) : Option NavMode :=
  if truthy (getParam s.search (kebabize cfg.key)) then none
  else some NavMode.replace

/-- The externally returned `state` (the `useMemo`, lines 74-84): the URL
parameter parsed as JSON when possible, the raw string otherwise, and the
default value when the parameter is absent or empty. -/
def deriveState (key : String) (search : UrlParams) (dv : Json) : Json :=
  match getParam search (kebabize key) with
  | some p => if p ≠ "" then parseParam p else dv
  | none => dv

/-- `updateState` (lines 56-72): an updater function is applied to
`JSON.parse(storageState)` — the storage-derived value, independent of the
URL-derived displayed value (`none` models the propagated exception when
the stored string is not valid JSON); a plain value is used as is.  The
next value is serialized with `serializeState` into the URL parameter and
navigated to without `replace`, i.e. a push that adds a history entry.
(The `console.log` in the source is side-effect free and not modeled.) -/
def updateState (cfg : BinderConfig) (search : UrlParams)
    (storageState : String) (newValue : Sum Json (Json → Json)) :
    Option (UrlParams × NavMode) :=
  match newValue with
  | .inl v =>
    some (setParam search (kebabize cfg.key) (serializeState v),
      NavMode.push)
  | .inr f =>
    match jsonParse storageState with
    | some prev =>
      some (setParam search (kebabize cfg.key) (serializeState (f prev)),
        NavMode.push)
    | none => none

theorem initFromStorage_binder_snd (cfg : BinderConfig) (pathname : String)
    (st0 : StorageMap) :
    (initFromStorage (binderStorageCfg cfg pathname) st0).2 = st0 := by
  simp only [initFromStorage, initFromStorageWith]
  cases getItem st0 (binderStorageCfg cfg pathname).key with
  | none => rfl
  | some raw =>
    by_cases h : raw = "" <;> simp [binderStorageCfg, h]

theorem initFromStorage_binder_default (cfg : BinderConfig)
    (pathname : String) (st0 : StorageMap)
    (hs : getItem st0 (storageKeyOf cfg.pfx pathname cfg.key) = none) :
    (initFromStorage (binderStorageCfg cfg pathname) st0).1 =
      serializeState cfg.defaultValue := by
  simp [initFromStorage, initFromStorageWith, binderStorageCfg, hs,
    getDefaultValue]

theorem binderMount_eq (cfg : BinderConfig) (pathname : String)
    (url0 : UrlParams) (st0 : StorageMap) :
    binderMount cfg pathname url0 st0 =
      { search := url0, storage := st0,
        storageState :=
          (initFromStorage (binderStorageCfg cfg pathname) st0).1,
        prevKey := storageKeyOf cfg.pfx pathname cfg.key } := by
  simp only [binderMount]
  rw [initFromStorage_binder_snd]
  rfl

theorem binderPass_samekey (cfg : BinderConfig) (pathname : String)
    (url : UrlParams) (st : StorageMap) (v : String) :
    binderPass cfg pathname
      { search := url, storage := st, storageState := v,
        prevKey := storageKeyOf cfg.pfx pathname cfg.key } =
      { search :=
          if truthy (getParam url (kebabize cfg.key)) then url
          else setParam url (kebabize cfg.key) v,
        storage := setItem st (storageKeyOf cfg.pfx pathname cfg.key) v,
        storageState :=
          match getParam url (kebabize cfg.key) with
          | some q => if q ≠ "" then q else v
          | none => v,
        prevKey := storageKeyOf cfg.pfx pathname cfg.key } := by
  simp [binderPass, binderStorageCfg, commitEffect, serializeState]

/-! ## Claims about the URL binder -/

/-- C3 (amended: restricted to a nonempty URL parameter value — the source
tests `if (!keyParam)`, so an empty parameter counts as absent and is
overwritten from storage instead): for every key whose URL parameter
`kebab(key)` is present with a nonempty value `p` while the storage entry
at the derived key holds a different serialized value, the mount
reconciliation settles after two rounds in a fixpoint whose storage entry
at the derived key equals `p`, with the URL parameter still `p`: the URL
parameter is authoritative. -/
theorem binder_url_wins (cfg : BinderConfig) (pathname : String)
    (url0 : UrlParams) (st0 : StorageMap) (p s0 : String)
    (hp : getParam url0 (kebabize cfg.key) = some p) (hpne : p ≠ "")
    (hs : getItem st0 (storageKeyOf cfg.pfx pathname cfg.key) = some s0)
    (hdiff : s0 ≠ p) :
    getItem (binderPass cfg pathname (binderPass cfg pathname
        (binderMount cfg pathname url0 st0))).storage
      (storageKeyOf cfg.pfx pathname cfg.key) = some p ∧
    getParam (binderPass cfg pathname (binderPass cfg pathname
        (binderMount cfg pathname url0 st0))).search
      (kebabize cfg.key) = some p ∧
    binderPass cfg pathname (binderPass cfg pathname (binderPass cfg pathname
        (binderMount cfg pathname url0 st0))) =
      binderPass cfg pathname (binderPass cfg pathname
        (binderMount cfg pathname url0 st0)) := by
  have htr : truthy (some p) = true := by simp [truthy, hpne]
  have h1 : binderPass cfg pathname
      { search := url0, storage := st0,
        storageState :=
          (initFromStorage (binderStorageCfg cfg pathname) st0).1,
        prevKey := storageKeyOf cfg.pfx pathname cfg.key } =
      { search := url0,
        storage := setItem st0 (storageKeyOf cfg.pfx pathname cfg.key)
          (initFromStorage (binderStorageCfg cfg pathname) st0).1,
        storageState := p,
        prevKey := storageKeyOf cfg.pfx pathname cfg.key } := by
    rw [binderPass_samekey]
    simp [hp, htr, hpne]
  have h2 : binderPass cfg pathname
      { search := url0,
        storage := setItem st0 (storageKeyOf cfg.pfx pathname cfg.key)
          (initFromStorage (binderStorageCfg cfg pathname) st0).1,
        storageState := p,
        prevKey := storageKeyOf cfg.pfx pathname cfg.key } =
      { search := url0,
        storage := setItem st0 (storageKeyOf cfg.pfx pathname cfg.key) p,
        storageState := p,
        prevKey := storageKeyOf cfg.pfx pathname cfg.key } := by
    rw [binderPass_samekey]
    simp [hp, htr, hpne, setItem_setItem]
  have h3 : binderPass cfg pathname
      { search := url0,
        storage := setItem st0 (storageKeyOf cfg.pfx pathname cfg.key) p,
        storageState := p,
        prevKey := storageKeyOf cfg.pfx pathname cfg.key } =
      { search := url0,
        storage := setItem st0 (storageKeyOf cfg.pfx pathname cfg.key) p,
        storageState := p,
        prevKey := storageKeyOf cfg.pfx pathname cfg.key } := by
    rw [binderPass_samekey]
    simp [hp, htr, hpne, setItem_setItem]
  rw [binderMount_eq, h1, h2]
  exact ⟨getItem_setItem_self st0 _ p, hp, by rw [h3]⟩

/-- Concrete configuration for the C3 counterexample: key `"k"`,
prefix `"p"` (derived storage key `"p_k"`). -/
def cfgC3ce : BinderConfig :=
  { key := "k", defaultValue := .str "dv", pfx := some "p" }

/-- C3 counterexample to the claim as stated: the URL parameter `k` is
present with the empty value while storage holds `"x"` at the derived key
`p_k`.  After the reconciliation settles, storage still holds `"x"`, not
the URL parameter's value `""` — indeed the URL parameter itself has been
overwritten from storage. -/
theorem binder_emptyParam_counterexample :
    getParam [("k", "")] (kebabize "k") = some "" ∧
    getItem [("p_k", "x")] (storageKeyOf (some "p") "/" "k") = some "x" ∧
    ("x" : String) ≠ "" ∧
    getItem (binderPass cfgC3ce "/" (binderPass cfgC3ce "/"
        (binderMount cfgC3ce "/" [("k", "")] [("p_k", "x")]))).storage
      (storageKeyOf (some "p") "/" "k") = some "x" ∧
    getParam (binderPass cfgC3ce "/" (binderPass cfgC3ce "/"
        (binderMount cfgC3ce "/" [("k", "")] [("p_k", "x")]))).search
      (kebabize "k") = some "x" ∧
    binderPass cfgC3ce "/" (binderPass cfgC3ce "/" (binderPass cfgC3ce "/"
        (binderMount cfgC3ce "/" [("k", "")] [("p_k", "x")]))) =
      binderPass cfgC3ce "/" (binderPass cfgC3ce "/"
        (binderMount cfgC3ce "/" [("k", "")] [("p_k", "x")])) := by decide

/-- Concrete configuration for the C3 witness. -/
def cfgC3w : BinderConfig :=
  { key := "filterKey", defaultValue := .str "dv", pfx := none }

/-- C3 witness: a deep link `?filter-key=u` overrides the previously
persisted `"s"` at `urlStorage_/x_filterKey`. -/
theorem binder_url_wins_witness :
    getItem (binderPass cfgC3w "/x" (binderPass cfgC3w "/x"
        (binderMount cfgC3w "/x" [("filter-key", "u")]
          [("urlStorage_/x_filterKey", "s")]))).storage
      (storageKeyOf none "/x" "filterKey") = some "u" ∧
    getParam (binderPass cfgC3w "/x" (binderPass cfgC3w "/x"
        (binderMount cfgC3w "/x" [("filter-key", "u")]
          [("urlStorage_/x_filterKey", "s")]))).search
      (kebabize "filterKey") = some "u" :=
  ⟨(binder_url_wins cfgC3w "/x" [("filter-key", "u")]
      [("urlStorage_/x_filterKey", "s")] "u" "s" (by decide) (by decide)
      (by decide) (by decide)).1,
   (binder_url_wins cfgC3w "/x" [("filter-key", "u")]
      [("urlStorage_/x_filterKey", "s")] "u" "s" (by decide) (by decide)
      (by decide) (by decide)).2.1⟩

/-- C4 (amended: the externally visible current value equals `defaultValue`
provided `defaultValue` is not a string that `JSON.parse` accepts — for
such a string default the displayed value is its parsed form, because
`serializeState` passes strings through raw and the `useMemo` re-parses the
parameter; the storage and URL conclusions are unchanged.  The proviso is
formalized conservatively by `safeDefault`: a string default must satisfy
`cannotBeJson` — after leading whitespace it does not begin with any
character that can start a JSON text, so the program's `JSON.parse` is
certain to throw on it — and a non-string default must lie in the modeled
`wfJson` fragment): with no storage entry at the derived key and no URL
parameter, the mount reconciliation reaches a fixpoint after one round;
there the current value equals `defaultValue`, storage holds
`serialize(defaultValue)` at the derived key, and the URL has gained
`kebab(key) = serialize(defaultValue)` via a replace navigation — no
mount-flow round ever issues a push, so no history entry is added. -/
theorem binder_default_populates (cfg : BinderConfig) (pathname : String)
    (url0 : UrlParams) (st0 : StorageMap)
    (hp : getParam url0 (kebabize cfg.key) = none)
    (hs : getItem st0 (storageKeyOf cfg.pfx pathname cfg.key) = none)
    (hstr : safeDefault cfg.defaultValue = true) :
    deriveState cfg.key (binderPass cfg pathname (binderPass cfg pathname
        (binderMount cfg pathname url0 st0))).search cfg.defaultValue =
      cfg.defaultValue ∧
    getItem (binderPass cfg pathname (binderPass cfg pathname
        (binderMount cfg pathname url0 st0))).storage
      (storageKeyOf cfg.pfx pathname cfg.key) =
      some (serializeState cfg.defaultValue) ∧
    getParam (binderPass cfg pathname (binderPass cfg pathname
        (binderMount cfg pathname url0 st0))).search (kebabize cfg.key) =
      some (serializeState cfg.defaultValue) ∧
    binderPassNav cfg (binderMount cfg pathname url0 st0) =
      some NavMode.replace ∧
    (∀ s : BinderState, binderPassNav cfg s ≠ some NavMode.push) ∧
    binderPass cfg pathname (binderPass cfg pathname (binderPass cfg pathname
        (binderMount cfg pathname url0 st0))) =
      binderPass cfg pathname (binderPass cfg pathname
        (binderMount cfg pathname url0 st0)) := by
  have hv0 := initFromStorage_binder_default cfg pathname st0 hs
  have h1 : binderPass cfg pathname
      { search := url0, storage := st0,
        storageState :=
          (initFromStorage (binderStorageCfg cfg pathname) st0).1,
        prevKey := storageKeyOf cfg.pfx pathname cfg.key } =
      { search := setParam url0 (kebabize cfg.key)
          (serializeState cfg.defaultValue),
        storage := setItem st0 (storageKeyOf cfg.pfx pathname cfg.key)
          (serializeState cfg.defaultValue),
        storageState := serializeState cfg.defaultValue,
        prevKey := storageKeyOf cfg.pfx pathname cfg.key } := by
    rw [binderPass_samekey]
    simp [hp, hv0, truthy]
  have h2 : binderPass cfg pathname
      { search := setParam url0 (kebabize cfg.key)
          (serializeState cfg.defaultValue),
        storage := setItem st0 (storageKeyOf cfg.pfx pathname cfg.key)
          (serializeState cfg.defaultValue),
        storageState := serializeState cfg.defaultValue,
        prevKey := storageKeyOf cfg.pfx pathname cfg.key } =
      { search := setParam url0 (kebabize cfg.key)
          (serializeState cfg.defaultValue),
        storage := setItem st0 (storageKeyOf cfg.pfx pathname cfg.key)
          (serializeState cfg.defaultValue),
        storageState := serializeState cfg.defaultValue,
        prevKey := storageKeyOf cfg.pfx pathname cfg.key } := by
    rw [binderPass_samekey, getParam_setParam_self]
    by_cases hv : serializeState cfg.defaultValue = "" <;>
      simp [truthy, hv, setItem_setItem, setParam_setParam]
  rw [binderMount_eq, h1, h2]
  refine ⟨?_, getItem_setItem_self _ _ _, getParam_setParam_self _ _ _,
    ?_, ?_, h2⟩
  · by_cases hv : serializeState cfg.defaultValue = "" <;>
      simp [deriveState, getParam_setParam_self, hv,
        parseParam_serializeState cfg.defaultValue hstr]
  · simp [binderPassNav, hp, truthy]
  · intro s
    unfold binderPassNav
    split <;> simp

/-- Concrete configuration for the C4 counterexample: the default value is
the string `"true"`, which itself parses as JSON. -/
def cfgC4ce : BinderConfig :=
  { key := "k", defaultValue := .str "true", pfx := some "p" }

/-- C4 counterexample to the claim as stated: with no storage entry and no
URL parameter and `defaultValue` the string `"true"`, after the first
render settles the displayed current value is `Json.bool true` — the
parsed form — not the default string `"true"`. -/
theorem binder_parsableStringDefault_counterexample :
    getParam ([] : UrlParams) (kebabize "k") = none ∧
    getItem ([] : StorageMap) (storageKeyOf (some "p") "/" "k") = none ∧
    deriveState "k" (binderPass cfgC4ce "/" (binderPass cfgC4ce "/"
        (binderMount cfgC4ce "/" [] []))).search (Json.str "true") =
      Json.bool true ∧
    Json.bool true ≠ Json.str "true" ∧
    binderPass cfgC4ce "/" (binderPass cfgC4ce "/" (binderPass cfgC4ce "/"
        (binderMount cfgC4ce "/" [] []))) =
      binderPass cfgC4ce "/" (binderPass cfgC4ce "/"
        (binderMount cfgC4ce "/" [] [])) := by decide

/-- Concrete configuration for the C4 witness: default string `"hello"`
does not parse as JSON. -/
def cfgC4w : BinderConfig :=
  { key := "k", defaultValue := .str "hello", pfx := some "p" }

/-- C4 witness: mounting over empty URL and storage populates both with
`"hello"`. -/
theorem binder_default_populates_witness :
    deriveState "k" (binderPass cfgC4w "/" (binderPass cfgC4w "/"
        (binderMount cfgC4w "/" [] []))).search (Json.str "hello") =
      Json.str "hello" ∧
    getItem (binderPass cfgC4w "/" (binderPass cfgC4w "/"
        (binderMount cfgC4w "/" [] []))).storage
      (storageKeyOf (some "p") "/" "k") =
      some (serializeState (Json.str "hello")) :=
  ⟨(binder_default_populates cfgC4w "/" [] [] (by decide) (by decide)
      (by decide)).1,
   (binder_default_populates cfgC4w "/" [] [] (by decide) (by decide)
      (by decide)).2.1⟩

/-- C8 (amended: the round trip holds for the low-level hook's default
`JSON.stringify` / `JSON.parse` pair on every value of the modeled `wfJson`
fragment, and for the URL binder's `serializeState` paired with its
parameter deserialization on every `safeDefault` value: a non-string value
of the fragment, or a string on which `JSON.parse` is certain to throw
(`cannotBeJson`).  A string that `JSON.parse` accepts comes back as its
parsed value instead — the counterexample): the two serialize/deserialize
pairs the program uses satisfy `deserialize(serialize(V)) = V` on those
domains. -/
theorem roundtrip_serialization :
    (∀ v : Json, wfJson v = true → jsonParse (jsonStringify v) = some v) ∧
    (∀ v : Json, safeDefault v = true → parseParam (serializeState v) = v) :=
  ⟨jsonParse_jsonStringify, parseParam_serializeState⟩

/-- C8 counterexample to the claim as stated: the string value `"123"` is
representable by `serializeState` (strings pass through raw), but the URL
binder's parameter deserialization parses it back as the number `123`, not
the original string. -/
theorem serializeState_roundtrip_counterexample :
    serializeState (Json.str "123") = "123" ∧
    parseParam (serializeState (Json.str "123")) = Json.num 123 ∧
    Json.num 123 ≠ Json.str "123" := by decide

/-- C8 witness: the JSON pair round-trips `true`, and the binder pair
round-trips the non-JSON string `"hello"`. -/
theorem roundtrip_serialization_witness :
    jsonParse (jsonStringify (Json.bool true)) = some (Json.bool true) ∧
    parseParam (serializeState (Json.str "hello")) = Json.str "hello" :=
  ⟨roundtrip_serialization.1 (Json.bool true) (by decide),
   roundtrip_serialization.2 (Json.str "hello") (by decide)⟩

/-- C9: a `setValue` call with an updater function applies it to
`JSON.parse(storageState)` — the storage-derived serialized value parsed
back to the structured type, not the URL-derived displayed value (the
parameter `search` plays no role in the argument) — and writes the
`serializeState`d result into the URL query parameter `kebab(key)` via a
push navigation that adds a history entry.  The hypothesis is that
`JSON.parse(storageState)` succeeds (every text the model's `jsonParse`
accepts is one `JSON.parse` accepts with the same value); when it throws,
`updateState` propagates the exception (`none`), the updater is never
invoked and nothing navigates. -/
theorem updateState_updater (cfg : BinderConfig) (search : UrlParams)
    (storageState : String) (f : Json → Json) (prev : Json)
    (h : jsonParse storageState = some prev) :
    updateState cfg search storageState (Sum.inr f) =
      some (setParam search (kebabize cfg.key) (serializeState (f prev)),
        NavMode.push) := by
  simp [updateState, h]

/-- Concrete configuration for the C9 witness. -/
def cfgC9 : BinderConfig := { key := "myKey", defaultValue := .null, pfx := none }

/-- C9 witness: with stored serialized state `"5"`, an updater receives
`Json.num 5` and its result lands in the `my-key` parameter with a push. -/
theorem updateState_updater_witness :
    updateState cfgC9 [] "5" (Sum.inr fun _ => Json.str "x") =
      some (setParam [] (kebabize "myKey") (serializeState (Json.str "x")),
        NavMode.push) ∧
    setParam [] (kebabize "myKey") (serializeState (Json.str "x")) =
      [("my-key", "x")] :=
  ⟨updateState_updater cfgC9 [] "5" (fun _ => Json.str "x") (Json.num 5)
      (by decide),
   by decide⟩

end UrlStorage
